import Mathlib

/-!
Verification of the statement-, declaration- and type-level lowering core of a
Go-to-Python translator.  The target (Python) syntax tree, the source (Go)
constructs and every compilation function below are shallow embeddings of the
corresponding Go code in `compiler/stmt.go`, `compiler/xcompiler.go` and
`compiler/compiler.go`.  The expression-lowering engine, the scope table and a
few one-line helpers live outside the embedded files; those are modelled from
the specification's collaborator contracts and are marked as such.
-/

namespace GoToPython

/-- Python constant values carried by `py.NameConstant` (True / False / None). -/
inductive PyConstV where
  | vTrue
  | vFalse
  | vNone
deriving DecidableEq

/-- Target (Python) expressions, mirroring the `pythonast` node kinds the
lowering core constructs.  `nilE` stands for a Go `nil` `py.Expr` value. -/
inductive PyExpr where
  | nilE
  | name (id : String)
  | num (n : String)
  | strE (s : String)
  | nameConst (v : PyConstV)
  | call (f : PyExpr) (args : List PyExpr)
  | tuple (elts : List PyExpr)
  | attribute (v : PyExpr) (attr : String)
  | subscript (v : PyExpr) (idx : PyExpr)
  | boolOpOr (l r : PyExpr)
  | compareEq (l r : PyExpr)
  | listE (elts : List PyExpr)
  | listComp (elt : PyExpr) (target : PyExpr) (iter : PyExpr)
  | starred (v : PyExpr)

/-- Target (Python) statements, mirroring the `pythonast` statement kinds used
by the lowering core.  `tryS` carries the body, the except handlers (handler
type together with handler body) and the finally body. -/
inductive PyStmt where
  | assign (targets : List PyExpr) (value : PyExpr)
  | exprStmt (value : PyExpr)
  | ret (value : PyExpr)
  | passS
  | ifS (test : PyExpr) (body orelse : List PyStmt)
  | whileS (test : PyExpr) (body : List PyStmt)
  | forS (target : PyExpr) (iter : PyExpr) (body : List PyStmt)
  | tryS (body : List PyStmt) (handlers : List (PyExpr × List PyStmt))
      (finalbody : List PyStmt)
  | delete (targets : List PyExpr)
  | functionDef (nm : String) (args : List String) (defaults : List PyExpr)
      (body : List PyStmt)
  | classDef (nm : String) (body : List PyStmt)
  | comment (text : String)
  | docString (lines : List String)

/-- Modelled from the spec: the helper names of the Python builtins used by the
lowering (`pyRange`, `pyLen`, `pyEnumerate`, `pyType`, `pyReversed`,
`pyKeyError`, `pyTrue`, `pyNone`), defined elsewhere in the repository as plain
`py.Name` / `py.NameConstant` constants. -/
def pyRange : PyExpr := .name "range"

def pyLen : PyExpr := .name "len"

def pyEnumerate : PyExpr := .name "enumerate"

def pyReversed : PyExpr := .name "reversed"

def pyKeyError : PyExpr := .name "KeyError"

def pyTrue : PyExpr := .nameConst .vTrue

def pyNone : PyExpr := .nameConst .vNone

/-- Source (Go) expressions as seen by the statement-lowering core.  The
expression engine is an external collaborator; per its contract (§6 of the
spec) lowering an expression yields a target expression plus an ordered list of
hoisted statements.  An `ident` is an identifier (the statement core inspects
identifiers for the blank name and for the `delete` builtin); a `callE` is a
call expression (inspected for the `delete` special form); every other
expression is `raw`, carrying directly the target code and the hoisted
statements the engine returns for it. -/
inductive GoExpr where
  | ident (nm : String)
  | callE (fn : GoExpr) (args : List GoExpr)
  | raw (code : PyExpr) (hoisted : List PyStmt)

mutual

/-- Modelled from the spec: the expression-lowering engine's output contract,
`(target expression, ordered hoisted statements)`.  Identifiers lower to their
stable generated name (modelled as the source name itself, hoisting nothing);
calls lower to a target call of the lowered callee on the lowered arguments,
hoisting the callee's statements then the arguments' statements in order. -/
def compileExprOut : GoExpr → PyExpr × List PyStmt
  | .ident nm => (.name nm, [])
  | .callE fn args =>
      let f := compileExprOut fn
      let a := compileExprListOut args
      (.call f.1 a.1, f.2 ++ a.2)
  | .raw code hoisted => (code, hoisted)

/-- Modelled from the spec: engine output for a list of expressions, in order. -/
def compileExprListOut : List GoExpr → List PyExpr × List PyStmt
  | [] => ([], [])
  | e :: es =>
      let c := compileExprOut e
      let cs := compileExprListOut es
      (c.1 :: cs.1, c.2 ++ cs.2)

end

/-- The target code an expression lowers to. -/
def codeOf (e : GoExpr) : PyExpr := (compileExprOut e).1

/-- The hoisted statements an expression's lowering produces. -/
def hoistOf (e : GoExpr) : List PyStmt := (compileExprOut e).2

/-- One `e.compileExpr` call of the statement core: appends the expression's
hoisted statements to the expression compiler's statement buffer (`e.stmts`)
and returns the lowered expression. -/
def compileExpr (buf : List PyStmt) (e : GoExpr) : List PyStmt × PyExpr :=
  (buf ++ hoistOf e, codeOf e)

/-- One `e.compileExprs` call: lowers a list of expressions in order,
accumulating their hoisted statements in the buffer. -/
def compileExprs (buf : List PyStmt) (es : List GoExpr) :
    List PyStmt × List PyExpr :=
  ((buf ++ (compileExprListOut es).2), (compileExprListOut es).1)

/-- Modelled from the spec: `makeTuple`, defined in the expression engine —
the right-hand side of a multi-assignment is a single value when there is
exactly one, else a tuple. -/
def makeTuple : List PyExpr → PyExpr
  | [x] => x
  | xs => .tuple xs

/-- Modelled from the spec: `e.compileExprsTuple` — an empty list lowers to the
absent expression, one expression to itself, several to a tuple in order. -/
def compileExprsTuple (buf : List PyStmt) (es : List GoExpr) :
    List PyStmt × PyExpr :=
  match es with
  | [] => (buf, .nilE)
  | [e] => compileExpr buf e
  | _ => let r := compileExprs buf es
         (r.1, .tuple r.2)

/-- Disjunction chain of one or more lowered case comparisons. -/
def orChain (x : PyExpr) (xs : List PyExpr) : PyExpr :=
  xs.foldl .boolOpOr x

/-- Modelled from the spec: `e.compileCaseClauseTest`, defined in the
expression engine — for a clause with no case expressions (the default clause)
it returns no test and hoists nothing; otherwise it lowers each case
expression in order (hoisting into the buffer) and builds the disjunction of
"case value equals tag" comparisons, or of the case expressions themselves
when there is no tag. -/
def compileCaseClauseTest (buf : List PyStmt) (cases : List GoExpr)
    (tag : Option PyExpr) : List PyStmt × Option PyExpr :=
  match cases with
  | [] => (buf, none)
  | _ =>
      let r := compileExprs buf cases
      let cmps := r.2.map (fun cd =>
        match tag with
        | some t => PyExpr.compareEq t cd
        | none => cd)
      match cmps with
      | [] => (r.1, none)
      | c :: cs => (r.1, some (orChain c cs))

/-- Resolved (Go) type categories, as the type oracle reports them to
`zeroValue` and `CompileTypeSpec` (`go/types` type kinds).  A `structT` carries
its fields (resolved name and type, in declaration order); a `named` type
carries the stable name of its type object; an `array` carries its length and
element type; a `basic` type carries its basic-kind info class. -/
inductive BasicKind where
  | str
  | boolean
  | integer
  | float
  | complex
deriving DecidableEq

inductive GoType where
  | pointer
  | sliceT
  | mapT
  | signature
  | interfaceT
  | structT (fields : List (String × GoType))
  | chanT
  | basic (k : BasicKind)
  | named (nm : String)
  | array (len : Nat) (elem : GoType)

/-- A `*ast.ValueSpec`: declared names together with their oracle-resolved
types, and the initializer expressions. -/
structure ValueSpec where
  names : List (String × GoType)
  values : List GoExpr

/-- Source (Go) statements, restricted to the constructs the claims are about.
`switchS` clauses are `(case expressions, clause body)` pairs; a clause whose
case-expression list is empty is the default clause.  The type-switch,
branch, labeled, send and go statements of the source dispatch are not needed
by any claim and are omitted from the embedding. -/
inductive GoStmt where
  | block (body : List GoStmt)
  | exprS (x : GoExpr)
  | retS (results : List GoExpr)
  | declS (specs : List ValueSpec)
  | forS (init : Option GoStmt) (cond : Option GoExpr) (post : Option GoStmt)
      (body : List GoStmt)
  | rangeS (key : Option GoExpr) (val : Option GoExpr) (x : GoExpr)
      (body : List GoStmt)
  | switchS (init : Option GoStmt) (tag : Option GoExpr)
      (clauses : List (List GoExpr × List GoStmt))
  | deferS (callFun : GoExpr) (callArgs : List GoExpr)
  | emptyS

/-- The compilation context (`XCompiler`): the mode flag (`global`), the
optional per-statement comment index (comment groups as lists of text lines),
and the active defer capture-list expression (`nil` before `addDefers` runs).
The naming scope and file set are not modelled: no claim concerns name
allocation or diagnostics positions, and the temporary generator is modelled
(from the spec's scope contract) as returning the seed name itself. -/
structure Ctx where
  global : Bool
  commentMap : Option (GoStmt → List (List String))
  defers : PyExpr

/-- `tempID`: Modelled from the spec: the scope's counter-backed generator of
synthetic temporaries; the claims under verification do not depend on the
uniquification policy, so the stable generated name is modelled as the seed
name itself. -/
def tempID (nm : String) : String := nm

/-- `isBlank` (stmt.go): an expression is blank iff it is the identifier `_`. -/
def isBlank (e : GoExpr) : Bool :=
  match e with
  | .ident nm => nm = "_"
  | _ => false

/-- `zeroValue` (xcompiler.go): the zero value of a resolved type.  The
receiver `c` is carried to mirror the method receiver; the function never
inspects it. -/
def zeroValue (c : Ctx) : GoType → PyExpr
  | .pointer | .sliceT | .mapT | .signature | .interfaceT | .structT _
  | .chanT => pyNone
  | .basic .str => .strE "\"\""
  | .basic .boolean => .nameConst .vFalse
  | .basic .integer => .num "0"
  | .basic .float => .num "0.0"
  | .basic .complex => .num "0.0"
  | .named nm => .call (.name nm) []
  | .array len elem =>
      .listComp (zeroValue c elem) (.name "_") (.call pyRange [.num (toString len)])

/-- `appendToList` (stmt.go): the statement `list.append(item)`. -/
def appendToList (list : PyExpr) (item : PyExpr) : PyStmt :=
  .exprStmt (.call (.attribute list "append") [item])

/-- `compileDeferStmt` (stmt.go): outside the defer-active mode, a defer
lowers to nothing; inside it, the callable and its arguments are lowered
(hoisting first the callable's then the arguments' statements) and a
`(callable, arguments-tuple)` pair is appended to the active capture list. -/
def compileDeferStmt (c : Ctx) (callFun : GoExpr) (callArgs : List GoExpr) :
    List PyStmt :=
  if !c.global then []
  else
    let rf := compileExpr [] callFun
    let ra := compileExprs rf.1 callArgs
    ra.1 ++ [appendToList c.defers (makeTuple [rf.2, .tuple ra.2])]

/-- `compileExprToStmt` (stmt.go): recognizes the one special expression
statement form, a call of the builtin `delete` on a (collection, key) pair,
and lowers it to a guarded removal (`try: del coll[key] except KeyError:
pass`); every other shape yields nothing.  Inputs are type-checked, so
`delete` always has exactly two arguments. -/
def compileExprToStmt (c : Ctx) (e : GoExpr) : Option (List PyStmt) :=
  match e with
  | .callE (.ident nm) [coll, key] =>
      if nm = "delete" then
        let r1 := compileExpr [] coll
        let r2 := compileExpr r1.1 key
        some (r2.1 ++
          [.tryS [.delete [.subscript r1.2 r2.2]] [(pyKeyError, [.passS])] []])
      else none
  | _ => none

/-- `compileExprStmt` (stmt.go): the `delete` special form if recognized, else
a bare expression-evaluation statement behind its hoisted statements. -/
def compileExprStmt (c : Ctx) (x : GoExpr) : List PyStmt :=
  match compileExprToStmt c x with
  | some compiled => compiled
  | none =>
      let r := compileExpr [] x
      r.1 ++ [.exprStmt r.2]

/-- `CompileValueSpec` (stmt.go): all names become targets in order; with no
initializers every name receives its type's zero value, otherwise the i-th
name receives the i-th lowered initializer while initializers last; the single
assignment's right side is `makeTuple` of the collected values. -/
def CompileValueSpec (c : Ctx) (spec : ValueSpec) : List PyStmt :=
  let targets := spec.names.map (fun nt => PyExpr.name nt.1)
  let r :=
    if spec.values.isEmpty then
      (([] : List PyStmt), spec.names.map (fun nt => zeroValue c nt.2))
    else
      compileExprs [] (spec.values.take spec.names.length)
  r.1 ++ [.assign targets (makeTuple r.2)]

/-- `compileReturnStmt` (stmt.go). -/
def compileReturnStmt (c : Ctx) (results : List GoExpr) : List PyStmt :=
  let r := compileExprsTuple [] results
  r.1 ++ [.ret r.2]

/-- The comment statements prepended by `compileStmt` ahead of a lowered
statement: one comment line per line of each attached comment group, only in
the comment-attaching mode and only when a comment index is installed. -/
def commentsFor (c : Ctx) (s : GoStmt) : List PyStmt :=
  if c.global then
    match c.commentMap with
    | some m => (m s).flatMap (fun group =>
        group.map (fun line => PyStmt.comment (" " ++ line)))
    | none => []
  else []

/-- The conditional chain `compileSwitchStmt` assembles by linking each
successive `If` into the previous one's `Orelse` and finally storing the
default body in the last `Orelse`: with no tests the chain is just the default
body, unwrapped. -/
def buildChain : List (PyExpr × List PyStmt) → List PyStmt → List PyStmt
  | [], dflt => dflt
  | (t, b) :: rest, dflt => [.ifS t b (buildChain rest dflt)]

mutual

/-- `compileStmt` (stmt.go): dispatch to the per-construct lowering, then, in
the comment-attaching mode, the attached comment lines are prepended to the
lowered statements. -/
def compileStmt (c : Ctx) (s : GoStmt) : Except String (List PyStmt) := do
  let core ← compileStmtCore c s
  pure (commentsFor c s ++ core)
termination_by (sizeOf s, 3)

/-- The dispatch switch of `compileStmt` (stmt.go), one case per construct. -/
def compileStmtCore (c : Ctx) : GoStmt → Except String (List PyStmt)
  | .block body => compileStmts c body
  | .exprS x => pure (compileExprStmt c x)
  | .retS results => pure (compileReturnStmt c results)
  | .declS specs => pure (specs.flatMap (CompileValueSpec c))
  | .forS init cond post body => compileForStmt c init cond post body
  | .rangeS key val x body => compileRangeStmt c key val x body
  | .switchS init tag clauses => compileSwitchStmt c init tag clauses
  | .deferS callFun callArgs => pure (compileDeferStmt c callFun callArgs)
  | .emptyS => pure []
termination_by s => (sizeOf s, 2)

/-- `compileStmts` (stmt.go): concatenation of the lowering of each child
statement, in order. -/
def compileStmts (c : Ctx) : List GoStmt → Except String (List PyStmt)
  | [] => pure []
  | s :: rest => do
      let a ← compileStmt c s
      let b ← compileStmts c rest
      pure (a ++ b)
termination_by l => (sizeOf l, 0)

/-- `compileForStmt` (stmt.go): the body is lowered (re-lowered followed by
the post clause when one is present), the init clause is lowered first if
present, the condition defaults to `True`, an empty lowered body becomes a
single `pass`, and the result is init, the condition's hoisted statements,
then one `while`. -/
def compileForStmt (c : Ctx) (init : Option GoStmt) (cond : Option GoExpr)
    (post : Option GoStmt) (body : List GoStmt) :
    Except String (List PyStmt) := do
  let body0 ← compileStmts c body
  let bodyC ←
    match post with
    | some p => do
        let b ← compileStmts c body
        let pc ← compileStmt c p
        pure (b ++ pc)
    | none => pure body0
  let initC ←
    match init with
    | some i => compileStmt c i
    | none => pure []
  let rt :=
    match cond with
    | some cd => compileExpr [] cd
    | none => ([], pyTrue)
  let bodyC := if bodyC.isEmpty then [PyStmt.passS] else bodyC
  pure (initC ++ rt.1 ++ [.whileS rt.2 bodyC])
termination_by (sizeOf (GoStmt.forS init cond post body), 1)

/-- `compileRangeStmt` (stmt.go): the body is lowered first (empty bodies
become a single `pass`), then the four handled shapes build one `for`;
the fifth shape (value bound without key) aborts the compilation. -/
def compileRangeStmt (c : Ctx) (key : Option GoExpr) (val : Option GoExpr)
    (x : GoExpr) (body : List GoStmt) : Except String (List PyStmt) := do
  let bodyC ← compileStmts c body
  let bodyC := if bodyC.isEmpty then [PyStmt.passS] else bodyC
  match key, val with
  | some k, none =>
      let rk := compileExpr [] k
      let rx := compileExpr rk.1 x
      pure (rx.1 ++ [.forS rk.2 (.call pyRange [.call pyLen [rx.2]]) bodyC])
  | some k, some v =>
      if isBlank k then
        let rv := compileExpr [] v
        let rx := compileExpr rv.1 x
        pure (rx.1 ++ [.forS rv.2 rx.2 bodyC])
      else
        let rk := compileExpr [] k
        let rv := compileExpr rk.1 v
        let rx := compileExpr rv.1 x
        pure (rx.1 ++ [.forS (.tuple [rk.2, rv.2]) (.call pyEnumerate [rx.2]) bodyC])
  | none, none =>
      let rx := compileExpr [] x
      pure (rx.1 ++ [.forS (.name "_") rx.2 bodyC])
  | none, some _ => throw "key == nil and value != nil in range for"
termination_by (sizeOf (GoStmt.rangeS key val x body), 1)

/-- `compileSwitchStmt` (stmt.go): the init clause is lowered first; a present
tag expression is lowered and assigned to the synthetic name `tag` (the
expression compiler's buffered hoisted statements are appended only after the
loop over the clauses, hence after this assignment); the clauses are folded
into tests and a default body; the buffered hoisted statements and then the
assembled conditional chain are appended. -/
def compileSwitchStmt (c : Ctx) (init : Option GoStmt) (tag : Option GoExpr)
    (clauses : List (List GoExpr × List GoStmt)) :
    Except String (List PyStmt) := do
  let initC ←
    match init with
    | some i => compileStmt c i
    | none => pure []
  let st :=
    match tag with
    | some tg =>
        let r := compileExpr [] tg
        (r.1, some (PyExpr.name (tempID "tag")),
         [PyStmt.assign [.name (tempID "tag")] r.2])
    | none => (([] : List PyStmt), (none : Option PyExpr), ([] : List PyStmt))
  let folded ← compileClauses c st.2.1 st.1 [] [] clauses
  pure (initC ++ st.2.2 ++ folded.1 ++ buildChain folded.2.1 folded.2.2)
termination_by (sizeOf (GoStmt.switchS init tag clauses), 1)

/-- The clause loop of `compileSwitchStmt` (stmt.go): each clause's test is
lowered against the tag (hoisting into the shared buffer) and its body is
lowered; a test-less clause overwrites the pending default body, any other
clause appends its `(test, body)` pair to the chain worklist. -/
def compileClauses (c : Ctx) (tag : Option PyExpr) (buf : List PyStmt)
    (tests : List (PyExpr × List PyStmt)) (dflt : List PyStmt) :
    List (List GoExpr × List GoStmt) →
    Except String (List PyStmt × List (PyExpr × List PyStmt) × List PyStmt)
  | [] => pure (buf, tests, dflt)
  | (cases, body) :: rest => do
      let rt := compileCaseClauseTest buf cases tag
      let bodyC ← compileStmts c body
      match rt.2 with
      | none => compileClauses c tag rt.1 tests bodyC rest
      | some t => compileClauses c tag rt.1 (tests ++ [(t, bodyC)]) dflt rest
termination_by cls => (sizeOf cls, 0)

end

/-- Reduction helper: `pure` on `Except` is `ok`. -/
@[simp] theorem exceptPure_eq {α : Type} (a : α) :
    (pure a : Except String α) = Except.ok a := rfl

/-- Reduction helper: binding an `ok` result applies the continuation. -/
@[simp] theorem exceptBind_ok {α β : Type} (a : α) (f : α → Except String β) :
    (Except.ok a : Except String α) >>= f = f a := rfl

/-- Reduction helper: `throw` on `Except` is `error`. -/
@[simp] theorem exceptThrow_eq {α : Type} (e : String) :
    (throw e : Except String α) = Except.error e := rfl

/-- Reduction helper: binding an error propagates it. -/
@[simp] theorem exceptBind_error {α β : Type} (e : String)
    (f : α → Except String β) :
    (Except.error e : Except String α) >>= f = Except.error e := rfl

mutual

/-- The `ast.Inspect` scan of `addDefers` (xcompiler.go): detects a defer
statement in a function body, recursing into nested statements but not into
expressions (so defers inside nested function literals do not count). -/
def containsDefer : GoStmt → Bool
  | .deferS _ _ => true
  | .block body => containsDeferList body
  | .forS init _ post body =>
      containsDeferOpt init || containsDeferOpt post || containsDeferList body
  | .rangeS _ _ _ body => containsDeferList body
  | .switchS init _ clauses =>
      containsDeferOpt init || containsDeferClauses clauses
  | _ => false

/-- Defer scan of an optional statement. -/
def containsDeferOpt : Option GoStmt → Bool
  | none => false
  | some s => containsDefer s

/-- Defer scan of a statement list. -/
def containsDeferList : List GoStmt → Bool
  | [] => false
  | s :: rest => containsDefer s || containsDeferList rest

/-- Defer scan of the case clauses of a switch body. -/
def containsDeferClauses : List (List GoExpr × List GoStmt) → Bool
  | [] => false
  | (_, body) :: rest => containsDeferList body || containsDeferClauses rest

end

/-- `addDefers` (xcompiler.go): outside the defer-active mode it does nothing;
otherwise, when the body contains a defer statement, it installs the synthetic
capture-list name in the context and returns the statement initializing that
list to empty. -/
def addDefers (c : Ctx) (body : List GoStmt) : Option PyStmt × Ctx :=
  if !c.global then (none, c)
  else if containsDeferList body then
    let d := PyExpr.name (tempID "defers")
    (some (.assign [d] (.listE [])), ⟨c.global, c.commentMap, d⟩)
  else (none, c)

/-- A `*ast.FuncType`: parameter fields, each a group of names. -/
structure FuncType where
  params : List (List String)

/-- The unwind loop `CompileFunc` emits in the protected region's finally
body: `for fun, args in reversed(defers): fun(*args)`. -/
def deferUnwindLoop (defers : PyExpr) : PyStmt :=
  .forS (.tuple [.name (tempID "fun"), .name (tempID "args")])
    (.call pyReversed [defers])
    [.exprStmt (.call (.name (tempID "fun")) [.starred (.name (tempID "args"))])]

/-- `CompileFunc` (xcompiler.go): compiles with a nested scope (the mode flag
and comment index are inherited); in the defer-active mode a body containing
defers gets a capture-list initialization before it and is wrapped in a
`try`/`finally` whose finally body runs the unwind loop; a method gets the
receiver name (or a synthetic self) prepended to the parameters; an empty
lowered body becomes a single `pass`. -/
def CompileFunc (parent : Ctx) (nm : String) (typ : FuncType)
    (body : List GoStmt) (isMethod : Bool) (recv : Option String) :
    Except String PyStmt := do
  let r := if parent.global then addDefers parent body else (none, parent)
  let c := r.2
  let deferInit := r.1
  let args :=
    (if isMethod then [recv.getD (tempID "self")] else []) ++
      typ.params.flatMap id
  let pyBody ← compileStmts c body
  let pyBody :=
    if parent.global then
      match deferInit with
      | some di => [di, .tryS pyBody [] [deferUnwindLoop c.defers]]
      | none => pyBody
    else pyBody
  let pyBody := if pyBody.isEmpty then [PyStmt.passS] else pyBody
  pure (.functionDef nm args [] pyBody)

/-- `makeDocString` (xcompiler.go): a comment group (modelled as its text
lines) becomes a documentation block. -/
def makeDocString (group : List String) : PyStmt :=
  .docString group

/-- A `*ast.FuncDecl`, with the receiver field resolved by the oracle: the
optional receiver is its declared name (if any) together with its resolved
type name, the function body is a statement list, and `doc` is the attached
documentation comment group.  Multi-receiver declarations (which abort the
source compilation) are not representable and not claimed. -/
structure GoFuncDecl where
  nm : String
  recv : Option (Option String × String)
  typ : FuncType
  body : List GoStmt
  doc : Option (List String)

/-- The result of `CompileFuncDecl`: the owning class name (empty for a free
function) and the lowered definition. -/
structure FuncDeclR where
  Class : String
  Def : PyStmt

/-- Prepend a documentation block to a lowered function definition's body. -/
def withDocString (fd : PyStmt) (doc : PyStmt) : PyStmt :=
  match fd with
  | .functionDef nm args defaults body => .functionDef nm args defaults (doc :: body)
  | s => s

/-- `CompileFuncDecl` (xcompiler.go). -/
def CompileFuncDecl (c : Ctx) (decl : GoFuncDecl) (withDoc : Bool) :
    Except String FuncDeclR := do
  let recvType :=
    match decl.recv with
    | some rv => rv.2
    | none => ""
  let recvName : Option String :=
    match decl.recv with
    | some rv => rv.1
    | none => none
  let funcDef ← CompileFunc c decl.nm decl.typ decl.body decl.recv.isSome recvName
  let funcDef :=
    if withDoc then
      match decl.doc with
      | some g => withDocString funcDef (makeDocString g)
      | none => funcDef
    else funcDef
  pure ⟨recvType, funcDef⟩

/-- `makeInitMethod` (xcompiler.go): the synthesized `__init__` whose
parameters are the struct's fields in order, each defaulting to its zero
value, and whose body assigns each field onto the receiver in order. -/
def makeInitMethod (c : Ctx) (fields : List (String × GoType)) : PyStmt :=
  .functionDef "__init__"
    ("self" :: fields.map (fun f => f.1))
    (fields.map (fun f => zeroValue c f.2))
    (fields.map (fun f =>
      PyStmt.assign [.attribute (.name "self") f.1] (.name f.1)))

/-- `compileStructType` (xcompiler.go): a class definition; in the
comment-attaching mode a leading documentation block is added when a comment
group is attached and a comment index is installed, and a constructor is
synthesized when the struct has fields; an empty body becomes a single
`pass`. -/
def compileStructType (c : Ctx) (nm : String) (fields : List (String × GoType))
    (doc : List (List String)) : PyStmt :=
  let body :=
    if c.global then
      (match c.commentMap with
       | some _ =>
           match doc with
           | g :: _ => [makeDocString g]
           | [] => []
       | none => []) ++
      (if fields.length > 0 then [makeInitMethod c fields] else [])
    else []
  let body := if body.isEmpty then [PyStmt.passS] else body
  .classDef nm body

/-- `CompileTypeSpec` (xcompiler.go), dispatching on the resolved type of the
spec: structs become classes; an alias of a named type becomes a plain name
binding; interfaces, signatures and map types lower to nothing (Go `nil`,
modelled as `none`); a basic or slice alias becomes a single-field struct
with the conventional `value` slot; other categories abort. -/
def CompileTypeSpec (c : Ctx) (nm : String) (typ : GoType)
    (doc : List (List String)) : Except String (Option PyStmt) :=
  match typ with
  | .structT fields => pure (some (compileStructType c nm fields doc))
  | .named other => pure (some (.assign [.name nm] (.name other)))
  | .interfaceT => pure none
  | .basic _ => pure (some (compileStructType c nm [("value", typ)] doc))
  | .sliceT => pure (some (compileStructType c nm [("value", typ)] doc))
  | .signature => pure none
  | .mapT => pure none
  | _ => throw "unknown TypeSpec"

/-- A declaration spec (`ast.Spec`): a type spec (name, resolved type and
attached comment groups), an import spec, or a value spec. -/
inductive GoSpec where
  | typeSpec (nm : String) (typ : GoType) (doc : List (List String))
  | importSpec
  | valueSpec (v : ValueSpec)

/-- A top-level declaration (`ast.Decl`). -/
inductive GoDecl where
  | funcDecl (d : GoFuncDecl)
  | genDecl (specs : List GoSpec)

/-- A source file: its comment map (comment groups, as line lists, attached
per statement) and its declarations. -/
structure GoFile where
  cmap : GoStmt → List (List String)
  decls : List GoDecl

/-- The intermediate `Module` record of compiler.go collecting lowered
declarations before assembly.  The `Methods` map is modelled as an
association list from class name to the methods collected for it. -/
structure Module where
  Values : List PyStmt
  Classes : List PyStmt
  Types : List (Option PyStmt)
  Functions : List PyStmt
  Methods : List (String × List PyStmt)

/-- The empty module `CompileFiles` starts from. -/
def emptyModule : Module := ⟨[], [], [], [], []⟩

/-- Appending a method under a class name in the methods map
(`module.Methods[class] = append(module.Methods[class], def)`). -/
def addMethod : List (String × List PyStmt) → String → PyStmt →
    List (String × List PyStmt)
  | [], cls, f => [(cls, [f])]
  | (k, fs) :: rest, cls, f =>
      if k = cls then (k, fs ++ [f]) :: rest
      else (k, fs) :: addMethod rest cls f

/-- Looking a class name up in the methods map (a Go map read: absent keys
yield the empty list). -/
def lookupMethods : List (String × List PyStmt) → String → List PyStmt
  | [], _ => []
  | (k, fs) :: rest, cls => if k = cls then fs else lookupMethods rest cls

/-- `compileGenDecl` (compiler.go): type specs whose lowering is a class
definition go to `Classes`, any other type-spec lowering (including the `nil`
ones) goes to `Types`; import specs are ignored; value-spec lowerings extend
`Values`. -/
def compileGenDecl (c : Ctx) (m : Module) : List GoSpec → Except String Module
  | [] => pure m
  | .typeSpec nm typ doc :: rest => do
      let compiled ← CompileTypeSpec c nm typ doc
      let m' :=
        match compiled with
        | some (.classDef cn cb) =>
            Module.mk m.Values (m.Classes ++ [.classDef cn cb]) m.Types
              m.Functions m.Methods
        | other =>
            Module.mk m.Values m.Classes (m.Types ++ [other]) m.Functions
              m.Methods
      compileGenDecl c m' rest
  | .importSpec :: rest => compileGenDecl c m rest
  | .valueSpec v :: rest =>
      compileGenDecl c
        (Module.mk (m.Values ++ CompileValueSpec c v) m.Classes m.Types
          m.Functions m.Methods) rest

/-- `compileDecl` (compiler.go): function declarations with a receiver type
are collected as methods of that type, free functions go to `Functions`;
gen-decls are delegated.  The source resolves its `CompileFuncDecl` call with
documentation attachment enabled. -/
def compileDecl (c : Ctx) (m : Module) : GoDecl → Except String Module
  | .funcDecl d => do
      let funcDecl ← CompileFuncDecl c d true
      if funcDecl.Class ≠ "" then
        pure (Module.mk m.Values m.Classes m.Types m.Functions
          (addMethod m.Methods funcDecl.Class funcDecl.Def))
      else
        pure (Module.mk m.Values m.Classes m.Types
          (m.Functions ++ [funcDecl.Def]) m.Methods)
  | .genDecl specs => compileGenDecl c m specs

/-- Folding `compileDecl` over a file's declarations. -/
def compileDecls (c : Ctx) (m : Module) : List GoDecl → Except String Module
  | [] => pure m
  | d :: rest => do
      let m' ← compileDecl c m d
      compileDecls c m' rest

/-- `compileFile` (compiler.go): installs the file's comment map in the
context and folds the declarations into the module. -/
def compileFile (c : Ctx) (m : Module) (file : GoFile) :
    Except String Module :=
  compileDecls ⟨c.global, some file.cmap, c.defers⟩ m file.decls

/-- Folding `compileFile` over the file set, from the empty module. -/
def buildModule (c : Ctx) : Module → List GoFile → Except String Module
  | m, [] => pure m
  | m, f :: rest => do
      let m' ← compileFile c m f
      buildModule c m' rest

/-- The per-class method attachment of `CompileFiles`: a class definition's
body is extended with the methods collected under its name. -/
def attachMethods (methods : List (String × List PyStmt)) : PyStmt → PyStmt
  | .classDef nm body => .classDef nm (body ++ lookupMethods methods nm)
  | s => s

/-- The output-module assembly tail of `CompileFiles` (compiler.go): values
first, then the classes (each with its methods attached), then the
functions.  The `Types` list is not consulted. -/
def assemble (m : Module) : List PyStmt :=
  m.Values ++ m.Classes.map (attachMethods m.Methods) ++ m.Functions

/-- `CompileFiles` (compiler.go): build the intermediate module over all
files, then assemble the output module body. -/
def CompileFiles (c : Ctx) (files : List GoFile) :
    Except String (List PyStmt) := do
  let m ← buildModule c emptyModule files
  pure (assemble m)

/-! ## Helper lemmas shared by the claim theorems -/

/-- `zeroValue` never inspects its receiver context. -/
theorem zeroValue_ctx (c1 c2 : Ctx) : ∀ t : GoType, zeroValue c1 t = zeroValue c2 t
  | .pointer => rfl
  | .sliceT => rfl
  | .mapT => rfl
  | .signature => rfl
  | .interfaceT => rfl
  | .structT _ => rfl
  | .chanT => rfl
  | .basic .str => rfl
  | .basic .boolean => rfl
  | .basic .integer => rfl
  | .basic .float => rfl
  | .basic .complex => rfl
  | .named _ => rfl
  | .array len elem => by
      simp only [zeroValue]
      rw [zeroValue_ctx c1 c2 elem]

/-- `CompileValueSpec` never inspects the context beyond `zeroValue`. -/
theorem CompileValueSpec_ctx (c1 c2 : Ctx) (v : ValueSpec) :
    CompileValueSpec c1 v = CompileValueSpec c2 v := by
  unfold CompileValueSpec
  rcases v with ⟨names, values⟩
  cases values with
  | nil =>
      have hm : (names.map fun nt => zeroValue c1 nt.2) =
          names.map fun nt => zeroValue c2 nt.2 :=
        List.map_congr_left fun nt _ => zeroValue_ctx c1 c2 nt.2
      simp only [List.isEmpty_nil, if_true, hm]
  | cons e es => rfl

/-! ## C6 -/

/-- C6: `zeroValue` is a total, pure function of the resolved type: it is
independent of the context (it only inspects the type), and it maps every
type category as specified — the reference-like categories (pointer, slice,
map, function signature, interface, struct, channel) to `None`, string to the
empty-string literal, boolean to `False`, integer to `0`, float and complex
to `0.0`, a named type to a zero-argument construction call on its name, and
a fixed-size array of length `N` to `N` repetitions of the element type's
zero value materialized as a sequence (a list comprehension over
`range(N)`). -/
theorem zeroValue_total_pure :
    (∀ (c1 c2 : Ctx) (t : GoType), zeroValue c1 t = zeroValue c2 t)
  ∧ (∀ c : Ctx,
      zeroValue c .pointer = pyNone ∧
      zeroValue c .sliceT = pyNone ∧
      zeroValue c .mapT = pyNone ∧
      zeroValue c .signature = pyNone ∧
      zeroValue c .interfaceT = pyNone ∧
      (∀ fields, zeroValue c (.structT fields) = pyNone) ∧
      zeroValue c .chanT = pyNone ∧
      zeroValue c (.basic .str) = .strE "\"\"" ∧
      zeroValue c (.basic .boolean) = .nameConst .vFalse ∧
      zeroValue c (.basic .integer) = .num "0" ∧
      zeroValue c (.basic .float) = .num "0.0" ∧
      zeroValue c (.basic .complex) = .num "0.0" ∧
      (∀ nm, zeroValue c (.named nm) = .call (.name nm) []) ∧
      (∀ len elem, zeroValue c (.array len elem) =
        .listComp (zeroValue c elem) (.name "_")
          (.call pyRange [.num (toString len)]))) :=
  ⟨zeroValue_ctx, fun _ =>
    ⟨rfl, rfl, rfl, rfl, rfl, fun _ => rfl, rfl, rfl, rfl, rfl, rfl, rfl,
     fun _ => rfl, fun _ _ => rfl⟩⟩

/-! ## C8 -/

/-- C8: a defer statement lowers to an append of a `(callable,
captured-arguments-tuple)` pair onto the active capture list exactly in the
defer-active compilation mode (the mode in which `CompileFunc` engages the
defer-emulation machinery for the function bodies it compiles); in the other
mode it lowers to zero statements rather than aborting. -/
theorem compileDeferStmt_context_gate (c : Ctx) (fn : GoExpr)
    (args : List GoExpr) :
    (c.global = false → compileDeferStmt c fn args = [])
  ∧ (c.global = true → compileDeferStmt c fn args =
      hoistOf fn ++ (compileExprListOut args).2 ++
      [appendToList c.defers
        (.tuple [codeOf fn, .tuple (compileExprListOut args).1])]) := by
  constructor
  · intro h
    simp [compileDeferStmt, h]
  · intro h
    simp [compileDeferStmt, h, compileExpr, compileExprs, makeTuple]

/-- Witness for C8 at concrete inputs: a defer with one argument in each
mode. -/
theorem compileDeferStmt_context_gate_w :
    compileDeferStmt ⟨false, none, .nilE⟩ (.ident "f") [.ident "x"] = [] ∧
    compileDeferStmt ⟨true, none, .name "d"⟩ (.ident "f") [.ident "x"] =
      [appendToList (.name "d") (.tuple [.name "f", .tuple [.name "x"]])] := by
  constructor
  · exact (compileDeferStmt_context_gate ⟨false, none, .nilE⟩ (.ident "f")
      [.ident "x"]).1 rfl
  · have h := (compileDeferStmt_context_gate ⟨true, none, .name "d"⟩
      (.ident "f") [.ident "x"]).2 rfl
    simpa [hoistOf, codeOf, compileExprOut, compileExprListOut] using h

/-! ## C9 -/

/-- C9: an expression statement that is a call of the builtin `delete` on a
(collection, key) pair lowers to a guarded removal — a `try` block deleting
the subscript whose `KeyError` handler is a single `pass` — behind the pair's
hoisted statements; every other expression statement lowers to a bare
expression-evaluation statement behind its hoisted statements. -/
theorem compileExprStmt_delete_guarded (c : Ctx) :
    (∀ coll key : GoExpr,
      compileExprStmt c (.callE (.ident "delete") [coll, key]) =
        hoistOf coll ++ hoistOf key ++
        [.tryS [.delete [.subscript (codeOf coll) (codeOf key)]]
          [(pyKeyError, [.passS])] []])
  ∧ (∀ x : GoExpr,
      (∀ coll key : GoExpr, x ≠ .callE (.ident "delete") [coll, key]) →
      compileExprStmt c x = hoistOf x ++ [.exprStmt (codeOf x)]) := by
  constructor
  · intro coll key
    simp [compileExprStmt, compileExprToStmt, compileExpr]
  · intro x hx
    have hnone : compileExprToStmt c x = none := by
      cases x with
      | ident nm => rfl
      | raw code hoisted => rfl
      | callE fn args =>
          cases fn with
          | callE f a => rfl
          | raw code hoisted => rfl
          | ident nm =>
              match args with
              | [] => rfl
              | [a] => rfl
              | a :: b :: d :: rest => rfl
              | [coll, key] =>
                  simp only [compileExprToStmt, ite_eq_right_iff]
                  intro hd
                  exact absurd (by rw [hd]) (hx coll key)
    simp [compileExprStmt, hnone, compileExpr]

/-- Witness for C9: `delete(m, k)` lowers to the guarded removal; a plain call
statement lowers to a bare expression statement. -/
theorem compileExprStmt_delete_guarded_w :
    compileExprStmt ⟨true, none, .nilE⟩
        (.callE (.ident "delete") [.ident "m", .ident "k"]) =
      [.tryS [.delete [.subscript (.name "m") (.name "k")]]
        [(pyKeyError, [.passS])] []] ∧
    compileExprStmt ⟨true, none, .nilE⟩ (.callE (.ident "g") [.ident "y"]) =
      [.exprStmt (.call (.name "g") [.name "y"])] := by
  constructor
  · have h := (compileExprStmt_delete_guarded ⟨true, none, .nilE⟩).1
      (.ident "m") (.ident "k")
    simpa [hoistOf, codeOf, compileExprOut] using h
  · have h := (compileExprStmt_delete_guarded ⟨true, none, .nilE⟩).2
      (.callE (.ident "g") [.ident "y"])
      (by intro coll key h
          injection h with h1 h2
          injection h1 with h3
          simp at h3)
    simpa [hoistOf, codeOf, compileExprOut, compileExprListOut] using h

/-! ## C4 -/

/-- C4: range-loop lowering covers exactly the four handled shapes of (key
present?, value present?, key is the discard identifier?) — key only iterates
`range(len(collection))`; discard key with value iterates the collection
binding the value; named key and value iterate `enumerate(collection)`
unpacking a `(key, value)` tuple; neither binding iterates the collection
binding the discard name — while the fifth shape, a value without a key,
aborts the compilation; and an empty lowered body becomes a single `pass`. -/
theorem compileRangeStmt_four_shapes (c : Ctx) (x : GoExpr)
    (body : List GoStmt) (bc : List PyStmt)
    (hbody : compileStmts c body = .ok bc) :
    (∀ k, compileRangeStmt c (some k) none x body =
        .ok (hoistOf k ++ hoistOf x ++
          [.forS (codeOf k) (.call pyRange [.call pyLen [codeOf x]])
            (if bc.isEmpty then [.passS] else bc)]))
  ∧ (∀ v, compileRangeStmt c (some (.ident "_")) (some v) x body =
        .ok (hoistOf v ++ hoistOf x ++
          [.forS (codeOf v) (codeOf x) (if bc.isEmpty then [.passS] else bc)]))
  ∧ (∀ k v, isBlank k = false →
        compileRangeStmt c (some k) (some v) x body =
        .ok (hoistOf k ++ hoistOf v ++ hoistOf x ++
          [.forS (.tuple [codeOf k, codeOf v]) (.call pyEnumerate [codeOf x])
            (if bc.isEmpty then [.passS] else bc)]))
  ∧ (compileRangeStmt c none none x body =
        .ok (hoistOf x ++
          [.forS (.name "_") (codeOf x) (if bc.isEmpty then [.passS] else bc)]))
  ∧ (∀ v, compileRangeStmt c none (some v) x body =
        .error "key == nil and value != nil in range for") := by
  refine ⟨fun k => ?_, fun v => ?_, fun k v hk => ?_, ?_, fun v => ?_⟩
  · rw [compileRangeStmt]; simp [hbody, compileExpr]
  · rw [compileRangeStmt]; simp [hbody, compileExpr, isBlank]
  · rw [compileRangeStmt]; simp [hbody, compileExpr, hk]
  · rw [compileRangeStmt]; simp [hbody, compileExpr]
  · rw [compileRangeStmt]; simp [hbody]

/-- Witness for C4: `for i := range xs {}` (scenario 2 of the spec) lowers to
a loop over `range(len(xs))` with a single `pass` body, and the illegal
value-only shape aborts. -/
theorem compileRangeStmt_four_shapes_w :
    compileRangeStmt ⟨true, none, .nilE⟩ (some (.ident "i")) none
        (.ident "xs") [] =
      .ok [.forS (.name "i") (.call pyRange [.call pyLen [.name "xs"]])
        [.passS]] ∧
    compileRangeStmt ⟨true, none, .nilE⟩ none (some (.ident "v"))
        (.ident "xs") [] =
      .error "key == nil and value != nil in range for" := by
  have h := compileRangeStmt_four_shapes ⟨true, none, .nilE⟩ (.ident "xs")
    [] [] (by simp [compileStmts])
  constructor
  · have h1 := h.1 (.ident "i")
    simpa [hoistOf, codeOf, compileExprOut] using h1
  · exact h.2.2.2.2 (.ident "v")

/-! ## C5 -/

/-- C5: a multi-name variable declaration lowers to a single multi-target
assignment: with no initializers every name receives its resolved type's zero
value; with one initializer per name the pairing is pairwise; with a single
initializer for several names that one lowered expression is the common right
side; and the right side is a single value exactly when one value was
collected, else a tuple preserving name order (`makeTuple`). -/
theorem CompileValueSpec_modes (c : Ctx) (names : List (String × GoType)) :
    (CompileValueSpec c ⟨names, []⟩ =
        [.assign (names.map fun nt => .name nt.1)
          (makeTuple (names.map fun nt => zeroValue c nt.2))])
  ∧ (∀ vs : List GoExpr, vs ≠ [] → vs.length = names.length →
      CompileValueSpec c ⟨names, vs⟩ =
        (compileExprListOut vs).2 ++
        [.assign (names.map fun nt => .name nt.1)
          (makeTuple (compileExprListOut vs).1)])
  ∧ (∀ v : GoExpr, names ≠ [] →
      CompileValueSpec c ⟨names, [v]⟩ =
        hoistOf v ++
        [.assign (names.map fun nt => .name nt.1) (codeOf v)])
  ∧ (∀ x : PyExpr, makeTuple [x] = x)
  ∧ (∀ xs : List PyExpr, xs.length ≠ 1 → makeTuple xs = .tuple xs) := by
  refine ⟨?_, fun vs hne hlen => ?_, fun v hnames => ?_, fun x => rfl,
    fun xs hxs => ?_⟩
  · simp [CompileValueSpec]
  · have htake : vs.take names.length = vs := by
      rw [← hlen]; exact List.take_length vs
    cases vs with
    | nil => exact absurd rfl hne
    | cons e es =>
        simp [CompileValueSpec, htake, compileExprs]
  · have htake : ([v] : List GoExpr).take names.length = [v] := by
      cases names with
      | nil => exact absurd rfl hnames
      | cons n ns => simp
    simp [CompileValueSpec, htake, compileExprs, compileExprListOut,
      makeTuple, compileExprOut, hoistOf, codeOf]
  · cases xs with
    | nil => rfl
    | cons a as =>
        cases as with
        | nil => simp at hxs
        | cons b bs => rfl

/-- Witness for C5: `var a, b int` lowers to the single assignment
`a, b = 0, 0` (scenario 4 of the spec), and a two-name one-initializer
declaration shares the single right side. -/
theorem CompileValueSpec_modes_w :
    CompileValueSpec ⟨true, none, .nilE⟩
        ⟨[("a", .basic .integer), ("b", .basic .integer)], []⟩ =
      [.assign [.name "a", .name "b"] (.tuple [.num "0", .num "0"])] ∧
    CompileValueSpec ⟨true, none, .nilE⟩
        ⟨[("a", .basic .integer), ("b", .basic .integer)], [.ident "f"]⟩ =
      [.assign [.name "a", .name "b"] (.name "f")] := by
  constructor
  · have h := (CompileValueSpec_modes ⟨true, none, .nilE⟩
      [("a", .basic .integer), ("b", .basic .integer)]).1
    simpa [zeroValue, makeTuple] using h
  · have h := (CompileValueSpec_modes ⟨true, none, .nilE⟩
      [("a", .basic .integer), ("b", .basic .integer)]).2.2.1 (.ident "f")
      (by intro h; cases h)
    simpa [hoistOf, codeOf, compileExprOut] using h

/-! ## C2 -/

/-- C2 (failing input): for a value switch whose tag expression lowers to `t`
with one hoisted statement `H`, the lowered sequence places `H` *after* the
synthetic tag assignment `tag = t` that uses the lowered tag (and before the
conditional chain): `compileSwitchStmt` appends the expression compiler's
buffer to the output only after the clause loop, by which time the tag
assignment has already been appended.  This contradicts the claimed (and
specified) emission order, which requires hoisted statements to precede the
statement that required the expression. -/
theorem compileSwitchStmt_tag_hoist_after_assign :
    compileSwitchStmt ⟨true, none, .nilE⟩ none
        (some (.raw (.name "t") [.exprStmt (.name "H")]))
        [([GoExpr.raw (.name "c1") []], [])] =
      .ok [.assign [.name "tag"] (.name "t"),
           .exprStmt (.name "H"),
           .ifS (.compareEq (.name "tag") (.name "c1")) [] []] := by
  rw [compileSwitchStmt]
  simp [compileClauses, compileStmts, compileCaseClauseTest, compileExpr,
    compileExprs, codeOf, hoistOf, compileExprOut, compileExprListOut,
    tempID, buildChain, orChain]

/-! ## C3 -/

/-- The capture pairs appended onto the synthetic capture list by a lowered
function body, in emission order. -/
def capturePairs : List PyStmt → List PyExpr
  | [] => []
  | .exprStmt (.call (.attribute (.name dn) "append") [item]) :: rest =>
      if dn = tempID "defers" then item :: capturePairs rest
      else capturePairs rest
  | _ :: rest => capturePairs rest

/-- Spec-side semantics of the unwind loop `for fun, args in
reversed(defers)`: the captured pairs are invoked in reverse append order. -/
def unwindCallOrder (tryBody : List PyStmt) : List PyExpr :=
  (capturePairs tryBody).reverse

/-- C3: a function body with defer statements `d1, d2, d3` in that order
lowers to a function that first initializes the capture list to empty, then
runs the body — which appends each `(callable, captured-arguments-tuple)`
pair in source encounter order — inside a protected region whose
unconditional exit action iterates the capture list in reverse, so the
deferred calls are invoked in the order `d3, d2, d1`. -/
theorem CompileFunc_defer_lifo (c : Ctx) (hg : c.global = true)
    (hcm : c.commentMap = none) (nm : String) (typ : FuncType)
    (isMethod : Bool) (recv : Option String) (f1 f2 f3 a1 a2 a3 : PyExpr) :
    CompileFunc c nm typ
        [.deferS (.raw f1 []) [.raw a1 []],
         .deferS (.raw f2 []) [.raw a2 []],
         .deferS (.raw f3 []) [.raw a3 []]] isMethod recv =
      .ok (.functionDef nm
        ((if isMethod then [recv.getD (tempID "self")] else []) ++
          typ.params.flatMap id) []
        [.assign [.name (tempID "defers")] (.listE []),
         .tryS
           [appendToList (.name (tempID "defers")) (.tuple [f1, .tuple [a1]]),
            appendToList (.name (tempID "defers")) (.tuple [f2, .tuple [a2]]),
            appendToList (.name (tempID "defers")) (.tuple [f3, .tuple [a3]])]
           [] [deferUnwindLoop (.name (tempID "defers"))]])
  ∧ unwindCallOrder
      [appendToList (.name (tempID "defers")) (.tuple [f1, .tuple [a1]]),
       appendToList (.name (tempID "defers")) (.tuple [f2, .tuple [a2]]),
       appendToList (.name (tempID "defers")) (.tuple [f3, .tuple [a3]])] =
      [.tuple [f3, .tuple [a3]], .tuple [f2, .tuple [a2]],
       .tuple [f1, .tuple [a1]]] := by
  obtain ⟨g, cm, df⟩ := c
  simp only at hg hcm
  subst hg; subst hcm
  constructor
  · rw [CompileFunc]
    simp [addDefers, containsDeferList, containsDefer, compileStmts,
      compileStmt, compileStmtCore, compileDeferStmt, compileExpr,
      compileExprs, codeOf, hoistOf, compileExprOut, compileExprListOut,
      commentsFor, tempID, makeTuple, appendToList, deferUnwindLoop]
  · simp [unwindCallOrder, capturePairs, appendToList, tempID]

/-- Witness for C3 (scenario 6 of the spec, with a third defer): a concrete
function whose body is `defer f1(x1); defer f2(x2); defer f3(x3)`. -/
theorem CompileFunc_defer_lifo_w :
    CompileFunc ⟨true, none, .nilE⟩ "f" ⟨[]⟩
        [.deferS (.raw (.name "f1") []) [.raw (.name "x1") []],
         .deferS (.raw (.name "f2") []) [.raw (.name "x2") []],
         .deferS (.raw (.name "f3") []) [.raw (.name "x3") []]] false none =
      .ok (.functionDef "f" [] []
        [.assign [.name "defers"] (.listE []),
         .tryS
           [appendToList (.name "defers")
              (.tuple [.name "f1", .tuple [.name "x1"]]),
            appendToList (.name "defers")
              (.tuple [.name "f2", .tuple [.name "x2"]]),
            appendToList (.name "defers")
              (.tuple [.name "f3", .tuple [.name "x3"]])]
           [] [deferUnwindLoop (.name "defers")]]) ∧
    unwindCallOrder
        [appendToList (.name "defers")
           (.tuple [.name "f1", .tuple [.name "x1"]]),
         appendToList (.name "defers")
           (.tuple [.name "f2", .tuple [.name "x2"]]),
         appendToList (.name "defers")
           (.tuple [.name "f3", .tuple [.name "x3"]])] =
      [.tuple [.name "f3", .tuple [.name "x3"]],
       .tuple [.name "f2", .tuple [.name "x2"]],
       .tuple [.name "f1", .tuple [.name "x1"]]] := by
  have h := CompileFunc_defer_lifo ⟨true, none, .nilE⟩ rfl rfl "f" ⟨[]⟩
    false none (.name "f1") (.name "f2") (.name "f3") (.name "x1")
    (.name "x2") (.name "x3")
  constructor
  · have h1 := h.1
    simpa [tempID] using h1
  · have h2 := h.2
    simpa [tempID] using h2

/-! ## C1 : spec-side two-pass switch lowering and fold lemmas -/

/-- Reduction helper: mapping over an `ok` result. -/
@[simp] theorem exceptMap_ok {α β : Type} (a : α) (f : α → β) :
    (Except.ok a : Except String α).map f = Except.ok (f a) := rfl

/-- Reduction helper: mapping over an error. -/
@[simp] theorem exceptMap_error {α β : Type} (e : String) (f : α → β) :
    (Except.error e : Except String α).map f = Except.error e := rfl

/-- The init handling of `compileSwitchStmt`: a present init clause is lowered
first, an absent one contributes nothing. -/
def compileSwitchInit (c : Ctx) : Option GoStmt → Except String (List PyStmt)
  | some i => compileStmt c i
  | none => pure []

/-- The pre-evaluated tag name a switch's case tests compare against. -/
def switchTagE : Option GoExpr → Option PyExpr
  | some _ => some (.name (tempID "tag"))
  | none => none

/-- The statements `compileSwitchStmt` emits for the tag: the synthetic tag
assignment followed (see C2) by the tag expression's hoisted statements. -/
def switchTagPart : Option GoExpr → List PyStmt
  | some tg => PyStmt.assign [.name (tempID "tag")] (codeOf tg) :: hoistOf tg
  | none => []

/-- Second definition, following the spec's two-pass description of switch
lowering: the hoisted statements contributed by the clauses' case
expressions, in source order (a default clause contributes nothing). -/
def clauseCaseHoists (tag : Option PyExpr) :
    List (List GoExpr × List GoStmt) → List PyStmt
  | [] => []
  | (cases, _) :: rest =>
      (compileCaseClauseTest [] cases tag).1 ++ clauseCaseHoists tag rest

/-- The lowering of every clause body, in source order. -/
def compileClauseBodies (c : Ctx) :
    List (List GoExpr × List GoStmt) → Except String (List (List PyStmt))
  | [] => pure []
  | (_, body) :: rest => do
      let b ← compileStmts c body
      let bs ← compileClauseBodies c rest
      pure (b :: bs)

/-- Second definition, following the spec's two-pass description: the ordered
`(test, lowered body)` pairs of the non-default clauses (the clauses whose
case-expression list produces a test). -/
def specTests (tag : Option PyExpr) :
    List (List GoExpr × List GoStmt) → List (List PyStmt) →
    List (PyExpr × List PyStmt)
  | [], _ => []
  | _ :: _, [] => []
  | (cases, _) :: rest, b :: bs =>
      match (compileCaseClauseTest [] cases tag).2 with
      | none => specTests tag rest bs
      | some t => (t, b) :: specTests tag rest bs

/-- Second definition, following the spec's two-pass description: the lowered
body of the last default clause (the clause producing no test), or the
fallback when no default clause exists. -/
def specDefault (tag : Option PyExpr) :
    List (List GoExpr × List GoStmt) → List (List PyStmt) → List PyStmt →
    List PyStmt
  | [], _, d0 => d0
  | _ :: _, [], d0 => d0
  | (cases, _) :: rest, b :: bs, d0 =>
      match (compileCaseClauseTest [] cases tag).2 with
      | none => specDefault tag rest bs b
      | some _ => specDefault tag rest bs d0

/-- The case-test compiler only appends to the buffer it is given. -/
theorem compileCaseClauseTest_buf (buf : List PyStmt) (cases : List GoExpr)
    (tag : Option PyExpr) :
    compileCaseClauseTest buf cases tag =
      (buf ++ (compileCaseClauseTest [] cases tag).1,
       (compileCaseClauseTest [] cases tag).2) := by
  cases cases with
  | nil => simp [compileCaseClauseTest]
  | cons e es =>
      simp [compileCaseClauseTest, compileExprs, compileExprListOut]

/-- A clause produces no test exactly when it has no case expressions. -/
theorem caseClauseTest_none_iff (cases : List GoExpr) (tag : Option PyExpr) :
    (compileCaseClauseTest [] cases tag).2 = none ↔ cases = [] := by
  cases cases with
  | nil => simp [compileCaseClauseTest]
  | cons e es =>
      simp [compileCaseClauseTest, compileExprs, compileExprListOut]

/-- Closed form of the clause loop of `compileSwitchStmt`: given the lowered
clause bodies, the loop extends the hoist buffer with the clauses' case
hoists, appends the non-default `(test, body)` pairs in source order, and
replaces the pending default body by the last default clause's body. -/
theorem compileClauses_spec (c : Ctx) (tag : Option PyExpr)
    (cls : List (List GoExpr × List GoStmt)) :
    ∀ (bs : List (List PyStmt)) (buf : List PyStmt)
      (tests : List (PyExpr × List PyStmt)) (d0 : List PyStmt),
      compileClauseBodies c cls = .ok bs →
      compileClauses c tag buf tests d0 cls =
        .ok (buf ++ clauseCaseHoists tag cls,
             tests ++ specTests tag cls bs,
             specDefault tag cls bs d0) := by
  induction cls with
  | nil =>
      intro bs buf tests d0 h
      simp only [compileClauseBodies, exceptPure_eq, Except.ok.injEq] at h
      subst h
      simp [compileClauses, clauseCaseHoists, specTests, specDefault]
  | cons cl rest ih =>
      intro bs buf tests d0 h
      obtain ⟨cases, body⟩ := cl
      rw [compileClauseBodies] at h
      cases hb : compileStmts c body with
      | error e => rw [hb] at h; simp at h
      | ok b =>
          rw [hb] at h
          cases hr : compileClauseBodies c rest with
          | error e => rw [hr] at h; simp at h
          | ok bs' =>
              rw [hr] at h
              simp only [exceptBind_ok, exceptPure_eq, Except.ok.injEq] at h
              subst h
              rw [compileClauses, compileCaseClauseTest_buf, hb]
              cases ht : (compileCaseClauseTest [] cases tag).2 with
              | none =>
                  simp only [exceptBind_ok]
                  rw [ih bs' (buf ++ (compileCaseClauseTest [] cases tag).1)
                    tests b hr]
                  simp [clauseCaseHoists, specTests, specDefault, ht]
              | some t =>
                  simp only [exceptBind_ok]
                  rw [ih bs' (buf ++ (compileCaseClauseTest [] cases tag).1)
                    (tests ++ [(t, b)]) d0 hr]
                  simp [clauseCaseHoists, specTests, specDefault, ht]

/-- The clause loop splits over concatenation of the clause list. -/
theorem compileClauses_append (c : Ctx) (tag : Option PyExpr)
    (l1 l2 : List (List GoExpr × List GoStmt)) :
    ∀ (buf : List PyStmt) (tests : List (PyExpr × List PyStmt))
      (d0 : List PyStmt),
      compileClauses c tag buf tests d0 (l1 ++ l2) =
        (compileClauses c tag buf tests d0 l1) >>= fun r =>
          compileClauses c tag r.1 r.2.1 r.2.2 l2 := by
  induction l1 with
  | nil => intro buf tests d0; simp [compileClauses]
  | cons cl rest ih =>
      intro buf tests d0
      obtain ⟨cases, body⟩ := cl
      rw [List.cons_append, compileClauses, compileClauses]
      cases hb : compileStmts c body with
      | error e => simp
      | ok b =>
          simp only [exceptBind_ok]
          cases ht : (compileCaseClauseTest buf cases tag).2 with
          | none => exact ih ..
          | some t => exact ih ..

/-- When no clause of the list is a default clause, the pending default body
is carried through the clause loop unchanged. -/
theorem compileClauses_d0 (c : Ctx) (tag : Option PyExpr)
    (cls : List (List GoExpr × List GoStmt))
    (hnd : ∀ p ∈ cls, p.1 ≠ ([] : List GoExpr)) :
    ∀ (buf : List PyStmt) (tests : List (PyExpr × List PyStmt))
      (d0 : List PyStmt),
      compileClauses c tag buf tests d0 cls =
        (compileClauses c tag buf tests [] cls).map fun r =>
          (r.1, r.2.1, d0) := by
  induction cls with
  | nil => intro buf tests d0; simp [compileClauses]
  | cons cl rest ih =>
      intro buf tests d0
      obtain ⟨cases, body⟩ := cl
      have hcs : cases ≠ [] := hnd (cases, body) (List.mem_cons_self _ _)
      have hrest : ∀ p ∈ rest, p.1 ≠ ([] : List GoExpr) :=
        fun p hp => hnd p (List.mem_cons_of_mem _ hp)
      rw [compileClauses, compileClauses]
      cases hb : compileStmts c body with
      | error e => simp
      | ok b =>
          simp only [exceptBind_ok]
          rw [compileCaseClauseTest_buf]
          cases ht : (compileCaseClauseTest [] cases tag).2 with
          | none => exact absurd ((caseClauseTest_none_iff cases tag).mp ht) hcs
          | some t => exact ih hrest ..

/-- Moving a default clause past trailing non-default clauses to the end of
the clause list does not change the clause loop's result (the default body is
recorded in the fold state, not in the emitted sequence). -/
theorem compileClauses_move_default (c : Ctx) (tag : Option PyExpr)
    (cs1 cs2 : List (List GoExpr × List GoStmt)) (db : List GoStmt)
    (dbC : List PyStmt) (hdb : compileStmts c db = .ok dbC)
    (hnd : ∀ p ∈ cs2, p.1 ≠ ([] : List GoExpr)) :
    ∀ (buf : List PyStmt) (tests : List (PyExpr × List PyStmt))
      (d0 : List PyStmt),
      compileClauses c tag buf tests d0 (cs1 ++ ([], db) :: cs2) =
      compileClauses c tag buf tests d0 (cs1 ++ cs2 ++ [([], db)]) := by
  intro buf tests d0
  rw [compileClauses_append c tag cs1 (([], db) :: cs2),
      List.append_assoc, compileClauses_append c tag cs1 (cs2 ++ [([], db)])]
  cases h1 : compileClauses c tag buf tests d0 cs1 with
  | error e => rfl
  | ok r =>
      simp only [exceptBind_ok]
      rw [compileClauses]
      simp only [compileCaseClauseTest, hdb, exceptBind_ok]
      rw [compileClauses_d0 c tag cs2 hnd,
          compileClauses_append c tag cs2 [([], db)],
          compileClauses_d0 c tag cs2 hnd r.1 r.2.1 r.2.2]
      cases h2 : compileClauses c tag r.1 r.2.1 [] cs2 with
      | error e => rfl
      | ok s =>
          simp only [exceptMap_ok, exceptBind_ok]
          rw [compileClauses]
          simp [compileCaseClauseTest, hdb, compileClauses]

/-- Clause lists with no default clause leave the fallback default body in
place. -/
theorem specDefault_no_default (tag : Option PyExpr)
    (cls : List (List GoExpr × List GoStmt))
    (hnd : ∀ p ∈ cls, p.1 ≠ ([] : List GoExpr)) :
    ∀ (bs : List (List PyStmt)) (d0 : List PyStmt),
      specDefault tag cls bs d0 = d0 := by
  induction cls with
  | nil => intro bs d0; rfl
  | cons cl rest ih =>
      intro bs d0
      obtain ⟨cases, body⟩ := cl
      have hcs : cases ≠ [] := hnd (cases, body) (List.mem_cons_self _ _)
      have hrest : ∀ p ∈ rest, p.1 ≠ ([] : List GoExpr) :=
        fun p hp => hnd p (List.mem_cons_of_mem _ hp)
      cases bs with
      | nil => rfl
      | cons b bs' =>
          rw [specDefault]
          cases ht : (compileCaseClauseTest [] cases tag).2 with
          | none => exact absurd ((caseClauseTest_none_iff cases tag).mp ht) hcs
          | some t => exact ih hrest bs' d0

/-- Clause lists consisting only of default clauses produce no tests. -/
theorem specTests_all_default (tag : Option PyExpr)
    (cls : List (List GoExpr × List GoStmt))
    (hall : ∀ p ∈ cls, p.1 = ([] : List GoExpr)) :
    ∀ bs : List (List PyStmt), specTests tag cls bs = [] := by
  induction cls with
  | nil => intro bs; rfl
  | cons cl rest ih =>
      intro bs
      obtain ⟨cases, body⟩ := cl
      have hcs : cases = [] := hall (cases, body) (List.mem_cons_self _ _)
      have hrest : ∀ p ∈ rest, p.1 = ([] : List GoExpr) :=
        fun p hp => hall p (List.mem_cons_of_mem _ hp)
      cases bs with
      | nil => rfl
      | cons b bs' =>
          subst hcs
          rw [specTests]
          simp only [compileCaseClauseTest]
          exact ih hrest bs'

/-- Clause lists consisting only of default clauses hoist nothing. -/
theorem clauseCaseHoists_all_default (tag : Option PyExpr)
    (cls : List (List GoExpr × List GoStmt))
    (hall : ∀ p ∈ cls, p.1 = ([] : List GoExpr)) :
    clauseCaseHoists tag cls = [] := by
  induction cls with
  | nil => rfl
  | cons cl rest ih =>
      obtain ⟨cases, body⟩ := cl
      have hcs : cases = [] := hall (cases, body) (List.mem_cons_self _ _)
      have hrest : ∀ p ∈ rest, p.1 = ([] : List GoExpr) :=
        fun p hp => hall p (List.mem_cons_of_mem _ hp)
      subst hcs
      rw [clauseCaseHoists]
      simp only [compileCaseClauseTest, List.nil_append]
      exact ih hrest

/-- Unfolding `compileSwitchStmt` past a successful init lowering: the output
is the init statements, the tag assignment, then the clause fold's buffer and
the assembled chain. -/
theorem compileSwitchStmt_unfold (c : Ctx) (init : Option GoStmt)
    (tag : Option GoExpr) (cls : List (List GoExpr × List GoStmt))
    (initC : List PyStmt) (hinit : compileSwitchInit c init = .ok initC) :
    compileSwitchStmt c init tag cls =
      (compileClauses c (switchTagE tag)
        (match tag with
         | some tg => hoistOf tg
         | none => []) [] [] cls) >>= fun folded =>
      pure (initC ++
        (match tag with
         | some tg => [PyStmt.assign [.name (tempID "tag")] (codeOf tg)]
         | none => []) ++ folded.1 ++ buildChain folded.2.1 folded.2.2) := by
  cases init with
  | none =>
      simp only [compileSwitchInit, exceptPure_eq, Except.ok.injEq] at hinit
      subst hinit
      cases tag with
      | none =>
          rw [compileSwitchStmt.eq_def]
          simp [switchTagE]
      | some tg =>
          rw [compileSwitchStmt.eq_def]
          simp [switchTagE, compileExpr, codeOf, hoistOf]
  | some i =>
      simp only [compileSwitchInit] at hinit
      cases tag with
      | none =>
          rw [compileSwitchStmt.eq_def]
          simp [hinit, switchTagE]
      | some tg =>
          rw [compileSwitchStmt.eq_def]
          simp [hinit, switchTagE, compileExpr, codeOf, hoistOf]

/-! ## C1 : the claim theorem -/

/-- C1: for every value switch, the lowering equals the two-pass chain
assembly: the init lowering, the tag part, the clauses' case hoists, then the
conditional chain built from the non-default clauses' `(test, body)` pairs in
source order and terminated by the last default clause's body (`buildChain`
places that body in the chain's final `else` and yields it bare when there
are no tests).  Moreover, moving the default clause past its trailing
non-default clauses to the end of the clause list leaves the lowering
unchanged; a clause list without a default produces the empty final `else`;
and when every clause is a default clause no conditional is produced — the
output is just the prefix followed by the default clause's body (or nothing
when there is no clause at all). -/
theorem compileSwitchStmt_default_clause_final (c : Ctx)
    (init : Option GoStmt) (tag : Option GoExpr)
    (cls : List (List GoExpr × List GoStmt)) (initC : List PyStmt)
    (bs : List (List PyStmt))
    (hinit : compileSwitchInit c init = .ok initC)
    (hbs : compileClauseBodies c cls = .ok bs) :
    (compileSwitchStmt c init tag cls =
      .ok (initC ++ switchTagPart tag ++
           clauseCaseHoists (switchTagE tag) cls ++
           buildChain (specTests (switchTagE tag) cls bs)
             (specDefault (switchTagE tag) cls bs [])))
  ∧ (∀ (cs1 cs2 : List (List GoExpr × List GoStmt)) (db : List GoStmt)
       (dbC : List PyStmt), compileStmts c db = .ok dbC →
       (∀ p ∈ cs2, p.1 ≠ ([] : List GoExpr)) →
       compileSwitchStmt c init tag (cs1 ++ ([], db) :: cs2) =
       compileSwitchStmt c init tag (cs1 ++ cs2 ++ [([], db)]))
  ∧ ((∀ p ∈ cls, p.1 ≠ ([] : List GoExpr)) →
       specDefault (switchTagE tag) cls bs [] = [])
  ∧ ((∀ p ∈ cls, p.1 = ([] : List GoExpr)) →
       compileSwitchStmt c init tag cls =
         .ok (initC ++ switchTagPart tag ++
              specDefault (switchTagE tag) cls bs [])) := by
  have hmain : compileSwitchStmt c init tag cls =
      .ok (initC ++ switchTagPart tag ++
           clauseCaseHoists (switchTagE tag) cls ++
           buildChain (specTests (switchTagE tag) cls bs)
             (specDefault (switchTagE tag) cls bs [])) := by
    rw [compileSwitchStmt_unfold c init tag cls initC hinit]
    cases tag with
    | none =>
        rw [compileClauses_spec c (switchTagE none) cls bs [] [] [] hbs]
        simp [switchTagPart, switchTagE]
    | some tg =>
        rw [compileClauses_spec c (switchTagE (some tg)) cls bs
          (hoistOf tg) [] [] hbs]
        simp [switchTagPart, switchTagE]
  refine ⟨hmain, fun cs1 cs2 db dbC hdb hnd2 => ?_, fun hnd => ?_,
    fun hall => ?_⟩
  · rw [compileSwitchStmt_unfold c init tag (cs1 ++ ([], db) :: cs2)
        initC hinit,
      compileSwitchStmt_unfold c init tag (cs1 ++ cs2 ++ [([], db)])
        initC hinit,
      compileClauses_move_default c (switchTagE tag) cs1 cs2 db dbC hdb hnd2]
  · exact specDefault_no_default (switchTagE tag) cls hnd bs []
  · rw [hmain, specTests_all_default (switchTagE tag) cls hall bs,
        clauseCaseHoists_all_default (switchTagE tag) cls hall]
    simp [buildChain]

/-- Witness for C1 at a concrete switch whose default clause sits between two
non-default clauses (scenario 5 of the spec, reordered): the default body
`C()` ends up as the chain's final `else`. -/
theorem compileSwitchStmt_default_clause_final_w :
    compileSwitchStmt ⟨true, none, .nilE⟩ none none
        [([GoExpr.raw (.name "cond1") []], [GoStmt.exprS (.ident "A")]),
         ([], [GoStmt.exprS (.ident "C")]),
         ([GoExpr.raw (.name "cond2") []], [GoStmt.exprS (.ident "B")])] =
      .ok [.ifS (.name "cond1") [.exprStmt (.name "A")]
             [.ifS (.name "cond2") [.exprStmt (.name "B")]
               [.exprStmt (.name "C")]]] := by
  have h := (compileSwitchStmt_default_clause_final ⟨true, none, .nilE⟩
    none none
    [([GoExpr.raw (.name "cond1") []], [GoStmt.exprS (.ident "A")]),
     ([], [GoStmt.exprS (.ident "C")]),
     ([GoExpr.raw (.name "cond2") []], [GoStmt.exprS (.ident "B")])]
    []
    [[.exprStmt (.name "A")], [.exprStmt (.name "C")],
     [.exprStmt (.name "B")]]
    rfl
    (by simp [compileClauseBodies, compileStmts, compileStmt,
      compileStmtCore, compileExprStmt, compileExprToStmt, compileExpr,
      codeOf, hoistOf, compileExprOut, commentsFor])).1
  simpa [switchTagPart, switchTagE, clauseCaseHoists, specTests, specDefault,
    compileCaseClauseTest, compileExprs, compileExprListOut, compileExprOut,
    buildChain, orChain, codeOf, hoistOf] using h

/-! ## C7 -/

/-- Bind inversion for `Except`. -/
theorem exceptBind_eq_ok {α β : Type} {e : Except String α}
    {f : α → Except String β} {b : β} (h : e >>= f = .ok b) :
    ∃ a, e = .ok a ∧ f a = .ok b := by
  cases e with
  | error err => simp at h
  | ok a => exact ⟨a, rfl, h⟩

/-- A target statement is a class definition. -/
def IsClassDef (s : PyStmt) : Prop :=
  ∃ nm body, s = .classDef nm body

/-- A target statement is a function definition. -/
def IsFunctionDef (s : PyStmt) : Prop :=
  ∃ nm args defaults body, s = .functionDef nm args defaults body

/-- The kind rank used to state the claimed output ordering: classes first,
then functions, then values (everything else). -/
def rankClassFnValue : PyStmt → Nat
  | .classDef _ _ => 0
  | .functionDef _ _ _ _ => 1
  | _ => 2

/-- Monotone check for a rank sequence. -/
def nonDecreasing : List Nat → Bool
  | [] => true
  | [_] => true
  | a :: b :: rest => decide (a ≤ b) && nonDecreasing (b :: rest)

/-- The claimed grouping of the output module body: classes-with-methods
first, then functions, then values. -/
def claimClassesFnsValuesOrder (body : List PyStmt) : Prop :=
  nonDecreasing (body.map rankClassFnValue) = true

/-- C7 counterexample: a file set with one plain value declaration followed
by one struct type declaration assembles to the value binding *before* the
class definition, refuting the claimed classes-functions-values ordering. -/
theorem CompileFiles_claim_order_cex :
    CompileFiles ⟨true, none, .nilE⟩
        [⟨fun _ => [],
          [.genDecl [.valueSpec ⟨[("a", .basic .integer)], []⟩],
           .genDecl [.typeSpec "S" (.structT []) []]]⟩] =
      .ok [.assign [.name "a"] (.num "0"), .classDef "S" [.passS]]
  ∧ ¬ claimClassesFnsValuesOrder
      [.assign [.name "a"] (.num "0"), .classDef "S" [.passS]] := by
  constructor
  · rfl
  · intro h
    simp [claimClassesFnsValuesOrder, nonDecreasing, rankClassFnValue] at h

/-- The value-spec lowerings contributed by one declaration spec. -/
def specValuesSpec (c : Ctx) : GoSpec → List PyStmt
  | .valueSpec v => CompileValueSpec c v
  | _ => []

/-- The value-spec lowerings contributed by one declaration. -/
def specValuesDecl (c : Ctx) : GoDecl → List PyStmt
  | .genDecl specs => specs.flatMap (specValuesSpec c)
  | .funcDecl _ => []

/-- The value-spec lowerings contributed by a file set, in file order. -/
def specValuesFiles (c : Ctx) (files : List GoFile) : List PyStmt :=
  files.flatMap fun f => f.decls.flatMap (specValuesDecl c)

/-- Spec-level value collection ignores the context. -/
theorem specValuesSpec_ctx (c1 c2 : Ctx) (sp : GoSpec) :
    specValuesSpec c1 sp = specValuesSpec c2 sp := by
  cases sp with
  | valueSpec v => exact CompileValueSpec_ctx c1 c2 v
  | typeSpec nm typ doc => rfl
  | importSpec => rfl

/-- Declaration-level value collection ignores the context. -/
theorem specValuesDecl_ctx (c1 c2 : Ctx) (d : GoDecl) :
    specValuesDecl c1 d = specValuesDecl c2 d := by
  cases d with
  | funcDecl f => rfl
  | genDecl specs =>
      simp only [specValuesDecl]
      exact List.flatMap_congr fun sp _ => specValuesSpec_ctx c1 c2 sp

/-- `CompileFunc` always produces a function definition. -/
theorem CompileFunc_shape (parent : Ctx) (nm : String) (typ : FuncType)
    (body : List GoStmt) (isMethod : Bool) (recv : Option String)
    (s : PyStmt) (h : CompileFunc parent nm typ body isMethod recv = .ok s) :
    IsFunctionDef s := by
  rw [CompileFunc.eq_def] at h
  obtain ⟨b, hb, hs⟩ := exceptBind_eq_ok h
  simp only [exceptPure_eq, Except.ok.injEq] at hs
  exact ⟨_, _, _, _, hs.symm⟩

/-- `CompileFuncDecl` always produces a function definition. -/
theorem CompileFuncDecl_shape (c : Ctx) (d : GoFuncDecl) (w : Bool)
    (r : FuncDeclR) (h : CompileFuncDecl c d w = .ok r) :
    IsFunctionDef r.Def := by
  rw [CompileFuncDecl.eq_def] at h
  obtain ⟨fd, hfd, hr⟩ := exceptBind_eq_ok h
  have hshape := CompileFunc_shape c d.nm d.typ d.body d.recv.isSome
    (match d.recv with
     | some rv => rv.1
     | none => none) fd hfd
  simp only [exceptPure_eq, Except.ok.injEq] at hr
  subst hr
  obtain ⟨n1, a1, d1, b1, hfd1⟩ := hshape
  subst hfd1
  cases w with
  | false => exact ⟨n1, a1, d1, b1, rfl⟩
  | true =>
      cases hd : d.doc with
      | none => simp [hd]; exact ⟨n1, a1, d1, b1, rfl⟩
      | some g => simp [hd, withDocString, makeDocString]
                  exact ⟨n1, a1, d1, _, rfl⟩

/-- Invariant of the gen-decl fold: values are extended exactly by the value
specs' lowerings, classes only grow by class definitions, and functions and
methods are untouched. -/
theorem compileGenDecl_inv (c : Ctx) (specs : List GoSpec) :
    ∀ (m m' : Module), compileGenDecl c m specs = .ok m' →
      m'.Values = m.Values ++ specs.flatMap (specValuesSpec c) ∧
      (∃ nc, m'.Classes = m.Classes ++ nc ∧ ∀ s ∈ nc, IsClassDef s) ∧
      m'.Functions = m.Functions := by
  induction specs with
  | nil =>
      intro m m' h
      simp only [compileGenDecl, exceptPure_eq, Except.ok.injEq] at h
      subst h
      exact ⟨by simp, ⟨[], by simp, by simp⟩, rfl⟩
  | cons sp rest ih =>
      intro m m' h
      cases sp with
      | importSpec =>
          rw [compileGenDecl] at h
          obtain ⟨hv, hc, hf⟩ := ih _ _ h
          exact ⟨by simpa [specValuesSpec] using hv, hc, hf⟩
      | valueSpec v =>
          rw [compileGenDecl] at h
          obtain ⟨hv, hc, hf⟩ := ih _ _ h
          refine ⟨?_, hc, hf⟩
          simpa [specValuesSpec, List.append_assoc] using hv
      | typeSpec nm typ doc =>
          rw [compileGenDecl] at h
          cases hts : CompileTypeSpec c nm typ doc with
          | error e => rw [hts] at h; simp at h
          | ok compiled =>
              rw [hts] at h
              simp only [exceptBind_ok] at h
              cases compiled with
              | none =>
                  obtain ⟨hv, hc, hf⟩ := ih _ _ h
                  exact ⟨by simpa [specValuesSpec] using hv, hc, hf⟩
              | some p =>
                  cases p
                  case classDef cn cb =>
                    obtain ⟨hv, ⟨nc, hcl, hcls⟩, hf⟩ := ih _ _ h
                    refine ⟨by simpa [specValuesSpec] using hv,
                      ⟨.classDef cn cb :: nc, ?_, ?_⟩, hf⟩
                    · simpa using hcl
                    · intro s hs
                      rcases List.mem_cons.mp hs with h1 | h2
                      · exact ⟨cn, cb, h1⟩
                      · exact hcls s h2
                  all_goals
                    obtain ⟨hv, hc, hf⟩ := ih _ _ h
                  all_goals
                    exact ⟨by simpa [specValuesSpec] using hv, hc, hf⟩

/-- Invariant of one declaration step. -/
theorem compileDecl_inv (c : Ctx) (d : GoDecl) (m m' : Module)
    (h : compileDecl c m d = .ok m') :
    m'.Values = m.Values ++ specValuesDecl c d ∧
    (∃ nc, m'.Classes = m.Classes ++ nc ∧ ∀ s ∈ nc, IsClassDef s) ∧
    (∃ nf, m'.Functions = m.Functions ++ nf ∧ ∀ s ∈ nf, IsFunctionDef s) := by
  cases d with
  | genDecl specs =>
      rw [compileDecl] at h
      obtain ⟨hv, hc, hf⟩ := compileGenDecl_inv c specs m m' h
      exact ⟨hv, hc, ⟨[], by simpa using hf, by simp⟩⟩
  | funcDecl fd =>
      rw [compileDecl] at h
      obtain ⟨r, hr, hm⟩ := exceptBind_eq_ok h
      have hshape := CompileFuncDecl_shape c fd true r hr
      by_cases hcls : r.Class = ""
      · rw [if_neg (by simpa using hcls)] at hm
        simp only [exceptPure_eq, Except.ok.injEq] at hm
        subst hm
        exact ⟨by simp [specValuesDecl], ⟨[], by simp, by simp⟩,
          ⟨[r.Def], rfl, by simpa using hshape⟩⟩
      · rw [if_pos (by simpa using hcls)] at hm
        simp only [exceptPure_eq, Except.ok.injEq] at hm
        subst hm
        exact ⟨by simp [specValuesDecl], ⟨[], by simp, by simp⟩,
          ⟨[], by simp, by simp⟩⟩

/-- Invariant of the declaration fold. -/
theorem compileDecls_inv (c : Ctx) (ds : List GoDecl) :
    ∀ (m m' : Module), compileDecls c m ds = .ok m' →
      m'.Values = m.Values ++ ds.flatMap (specValuesDecl c) ∧
      (∃ nc, m'.Classes = m.Classes ++ nc ∧ ∀ s ∈ nc, IsClassDef s) ∧
      (∃ nf, m'.Functions = m.Functions ++ nf ∧ ∀ s ∈ nf, IsFunctionDef s) := by
  induction ds with
  | nil =>
      intro m m' h
      simp only [compileDecls, exceptPure_eq, Except.ok.injEq] at h
      subst h
      exact ⟨by simp, ⟨[], by simp, by simp⟩, ⟨[], by simp, by simp⟩⟩
  | cons d rest ih =>
      intro m m' h
      rw [compileDecls] at h
      obtain ⟨m1, h1, h2⟩ := exceptBind_eq_ok h
      obtain ⟨hv1, ⟨nc1, hc1, hcs1⟩, ⟨nf1, hf1, hfs1⟩⟩ := compileDecl_inv c d m m1 h1
      obtain ⟨hv2, ⟨nc2, hc2, hcs2⟩, ⟨nf2, hf2, hfs2⟩⟩ := ih _ _ h2
      refine ⟨?_, ⟨nc1 ++ nc2, ?_, ?_⟩, ⟨nf1 ++ nf2, ?_, ?_⟩⟩
      · rw [hv2, hv1]; simp
      · rw [hc2, hc1]; simp
      · intro s hs
        rcases List.mem_append.mp hs with h1 | h2
        · exact hcs1 s h1
        · exact hcs2 s h2
      · rw [hf2, hf1]; simp
      · intro s hs
        rcases List.mem_append.mp hs with h1 | h2
        · exact hfs1 s h1
        · exact hfs2 s h2

/-- Invariant of the file fold from an arbitrary starting module. -/
theorem buildModule_inv (c : Ctx) (files : List GoFile) :
    ∀ (m0 m : Module), buildModule c m0 files = .ok m →
      m.Values = m0.Values ++ specValuesFiles c files ∧
      (∃ nc, m.Classes = m0.Classes ++ nc ∧ ∀ s ∈ nc, IsClassDef s) ∧
      (∃ nf, m.Functions = m0.Functions ++ nf ∧ ∀ s ∈ nf, IsFunctionDef s) := by
  induction files with
  | nil =>
      intro m0 m h
      simp only [buildModule, exceptPure_eq, Except.ok.injEq] at h
      subst h
      exact ⟨by simp [specValuesFiles], ⟨[], by simp, by simp⟩,
        ⟨[], by simp, by simp⟩⟩
  | cons f rest ih =>
      intro m0 m h
      rw [buildModule] at h
      obtain ⟨m1, h1, h2⟩ := exceptBind_eq_ok h
      rw [compileFile] at h1
      obtain ⟨hv1, ⟨nc1, hc1, hcs1⟩, ⟨nf1, hf1, hfs1⟩⟩ :=
        compileDecls_inv ⟨c.global, some f.cmap, c.defers⟩ f.decls m0 m1 h1
      obtain ⟨hv2, ⟨nc2, hc2, hcs2⟩, ⟨nf2, hf2, hfs2⟩⟩ := ih _ _ h2
      refine ⟨?_, ⟨nc1 ++ nc2, ?_, ?_⟩, ⟨nf1 ++ nf2, ?_, ?_⟩⟩
      · rw [hv2, hv1]
        have hctx : f.decls.flatMap
            (specValuesDecl ⟨c.global, some f.cmap, c.defers⟩) =
            f.decls.flatMap (specValuesDecl c) :=
          List.flatMap_congr fun d _ =>
            specValuesDecl_ctx ⟨c.global, some f.cmap, c.defers⟩ c d
        rw [hctx]
        simp [specValuesFiles]
      · rw [hc2, hc1]; simp
      · intro s hs
        rcases List.mem_append.mp hs with h1 | h2
        · exact hcs1 s h1
        · exact hcs2 s h2
      · rw [hf2, hf1]; simp
      · intro s hs
        rcases List.mem_append.mp hs with h1 | h2
        · exact hfs1 s h1
        · exact hfs2 s h2

/-- Method attachment preserves being a class definition. -/
theorem attachMethods_classdef (ms : List (String × List PyStmt))
    (s : PyStmt) (h : IsClassDef s) : IsClassDef (attachMethods ms s) := by
  obtain ⟨nm, body, rfl⟩ := h
  exact ⟨nm, body ++ lookupMethods ms nm, rfl⟩

/-- C7 (amended): the module assembler orders the output module body as the
value-spec lowerings first (in file order), then the classes-with-methods,
then the functions. -/
theorem CompileFiles_assembly_order (c : Ctx) (files : List GoFile)
    (body : List PyStmt) (h : CompileFiles c files = .ok body) :
    ∃ cs fs, body = specValuesFiles c files ++ cs ++ fs ∧
      (∀ s ∈ cs, IsClassDef s) ∧ (∀ s ∈ fs, IsFunctionDef s) := by
  rw [CompileFiles.eq_def] at h
  obtain ⟨m, hm, hass⟩ := exceptBind_eq_ok h
  simp only [exceptPure_eq, Except.ok.injEq] at hass
  obtain ⟨hv, ⟨nc, hcl, hcls⟩, ⟨nf, hfl, hfs⟩⟩ :=
    buildModule_inv c files emptyModule m hm
  simp only [emptyModule, List.nil_append] at hv hcl hfl
  refine ⟨m.Classes.map (attachMethods m.Methods), m.Functions, ?_, ?_, ?_⟩
  · rw [← hass, assemble, hv]
  · intro s hs
    obtain ⟨cl, hcl0, rfl⟩ := List.mem_map.mp hs
    exact attachMethods_classdef m.Methods cl (hcls cl (hcl ▸ hcl0))
  · intro s hs
    exact hfs s (hfl ▸ hs)

/-- Witness for the amended C7: the counterexample file set's body decomposes
as its value lowering, then its class, then no functions. -/
theorem CompileFiles_assembly_order_w :
    ∃ cs fs,
      [PyStmt.assign [.name "a"] (.num "0"), PyStmt.classDef "S" [.passS]] =
        specValuesFiles ⟨true, none, .nilE⟩
          [⟨fun _ => [],
            [.genDecl [.valueSpec ⟨[("a", .basic .integer)], []⟩],
             .genDecl [.typeSpec "S" (.structT []) []]]⟩] ++ cs ++ fs ∧
      (∀ s ∈ cs, IsClassDef s) ∧ (∀ s ∈ fs, IsFunctionDef s) :=
  CompileFiles_assembly_order ⟨true, none, .nilE⟩
    [⟨fun _ => [],
      [.genDecl [.valueSpec ⟨[("a", .basic .integer)], []⟩],
       .genDecl [.typeSpec "S" (.structT []) []]]⟩]
    [.assign [.name "a"] (.num "0"), .classDef "S" [.passS]] rfl

/-! ## C10 -/

/-- C10: a type declaration whose lowering is not a class definition — for
example a named-type alias, which lowers to a plain name binding — is stored
in the intermediate module's `Types` list (values, classes, functions and
methods untouched); the assembly of the output module never consults `Types`;
and hence a file set holding only such a declaration compiles to an empty
output module body. -/
theorem typeSpec_nonclass_dropped :
    (∀ (c : Ctx) (m : Module) (nm tgt : String) (doc : List (List String)),
      compileGenDecl c m [.typeSpec nm (.named tgt) doc] =
        .ok (Module.mk m.Values m.Classes
          (m.Types ++ [some (.assign [.name nm] (.name tgt))])
          m.Functions m.Methods))
  ∧ (∀ (v cl fn : List PyStmt) (ty ty' : List (Option PyStmt))
       (me : List (String × List PyStmt)),
      assemble ⟨v, cl, ty, fn, me⟩ = assemble ⟨v, cl, ty', fn, me⟩)
  ∧ (CompileFiles ⟨true, none, .nilE⟩
      [⟨fun _ => [], [.genDecl [.typeSpec "MyInt" (.named "OtherT") []]]⟩] =
      .ok []) := by
  refine ⟨fun c m nm tgt doc => ?_, fun v cl fn ty ty' me => rfl, rfl⟩
  simp [compileGenDecl, CompileTypeSpec]

end GoToPython
